import Mathlib

/-!
Verification of the document-composition and chart-selection logic of
`report.py` (class `Report`).  Strings are modelled as `List Char`
(Python `str`), the report document as the text buffer stored at
`self.filepath` (every mutation in the source is a whole-file
read-modify-write, so a pure buffer-to-buffer function is an exact model).
-/

namespace Report

/-- Model of Python `needle in` / prefix test: `startsWith pat s` is true
iff `pat` is a prefix of `s`.  Defined from scratch so that all lemmas
below are self-contained. -/
def startsWith : List Char → List Char → Bool
  | [], _ => true
  | _ :: _, [] => false
  | a :: as, b :: bs => a == b && startsWith as bs

/-- Number of positions of `s` at which `pat` matches (occurrence count of
`pat` as a substring, counting every start position). -/
def occCount (pat : List Char) : List Char → Nat
  | [] => 0
  | c :: rest => (if startsWith pat (c :: rest) then 1 else 0) + occCount pat rest

/-- Model of Python `str.replace(old, new)`: scan left to right, replace
every non-overlapping occurrence of `old` by `new`.  (For `old = []`
Python inserts between every character; the guard returns `s` unchanged
instead, and `old` is always the non-empty marker in this development.) -/
def replaceAll (old new : List Char) : List Char → List Char
  | [] => []
  | c :: rest =>
    if old ≠ [] ∧ startsWith old (c :: rest) = true then
      new ++ replaceAll old new (List.drop old.length (c :: rest))
    else
      c :: replaceAll old new rest
termination_by s => s.length
decreasing_by
  · simp only [List.length_drop, List.length_cons]
    have hold : 0 < old.length := List.length_pos.mpr (by tauto)
    omega
  · simp only [List.length_cons]
    omega

theorem startsWith_iff : ∀ (pat s : List Char), startsWith pat s = true ↔ ∃ t, s = pat ++ t
  | [], s => by simp [startsWith]
  | _ :: _, [] => by simp [startsWith]
  | a :: as, b :: bs => by
      simp only [startsWith, Bool.and_eq_true, beq_iff_eq]
      constructor
      · rintro ⟨rfl, h⟩
        obtain ⟨t, rfl⟩ := (startsWith_iff as bs).mp h
        exact ⟨t, rfl⟩
      · rintro ⟨t, ht⟩
        injection ht with h1 h2
        exact ⟨h1.symm, (startsWith_iff as bs).mpr ⟨t, h2⟩⟩

theorem startsWith_self_append (pat t : List Char) : startsWith pat (pat ++ t) = true :=
  (startsWith_iff pat (pat ++ t)).mpr ⟨t, rfl⟩

/-- A match of `pat` cannot reach past a character `c` that `pat` does not
contain: matching at the front of `xs ++ c :: ys` is the same as matching
at the front of `xs`. -/
theorem startsWith_append_cons (pat xs ys : List Char) (c : Char) (hc : c ∉ pat) :
    startsWith pat (xs ++ c :: ys) = startsWith pat xs := by
  cases h1 : startsWith pat xs with
  | true =>
      obtain ⟨t, rfl⟩ := (startsWith_iff pat xs).mp h1
      exact (startsWith_iff _ _).mpr ⟨t ++ c :: ys, by simp⟩
  | false =>
      rw [Bool.eq_false_iff]
      intro hT
      obtain ⟨t, ht⟩ := (startsWith_iff _ _).mp hT
      rcases List.append_eq_append_iff.mp ht.symm with ⟨k, hk1, _⟩ | ⟨k, hk1, hk2⟩
      · rw [Bool.eq_false_iff] at h1
        exact h1 ((startsWith_iff _ _).mpr ⟨k, hk1⟩)
      · cases k with
        | nil =>
            rw [Bool.eq_false_iff] at h1
            exact h1 ((startsWith_iff _ _).mpr ⟨[], by simp [hk1]⟩)
        | cons e k2 =>
            injection hk2 with h3 _
            subst h3
            exact hc (by simp [hk1])

theorem occCount_nil (pat : List Char) : occCount pat [] = 0 := rfl

theorem occCount_cons (pat : List Char) (c : Char) (rest : List Char) :
    occCount pat (c :: rest)
      = (if startsWith pat (c :: rest) then 1 else 0) + occCount pat rest := rfl

theorem startsWith_nil_right (pat : List Char) (hpat : pat ≠ []) :
    startsWith pat [] = false := by
  cases pat with
  | nil => exact absurd rfl hpat
  | cons a as => rfl

/-- A character not occurring in `pat` contributes no match position. -/
theorem occCount_cons_of_notMem (pat ys : List Char) (c : Char) (hc : c ∉ pat)
    (hpat : pat ≠ []) : occCount pat (c :: ys) = occCount pat ys := by
  have h : startsWith pat (c :: ys) = false := by
    have := startsWith_append_cons pat [] ys c hc
    simpa [startsWith_nil_right pat hpat] using this
  simp [occCount_cons, h]

/-- Occurrence counting splits at a separating character that `pat` does
not contain (no occurrence can cross such a character). -/
theorem occCount_append_cons (pat xs ys : List Char) (c : Char) (hc : c ∉ pat)
    (hpat : pat ≠ []) :
    occCount pat (xs ++ c :: ys) = occCount pat xs + occCount pat ys := by
  induction xs with
  | nil => simp [occCount_cons_of_notMem pat ys c hc hpat, occCount_nil]
  | cons x xs2 ih =>
      have hsw := startsWith_append_cons pat (x :: xs2) ys c hc
      calc occCount pat ((x :: xs2) ++ c :: ys)
          = (if startsWith pat ((x :: xs2) ++ c :: ys) then 1 else 0)
              + occCount pat (xs2 ++ c :: ys) := by
            simp [occCount_cons]
        _ = (if startsWith pat (x :: xs2) then 1 else 0)
              + (occCount pat xs2 + occCount pat ys) := by rw [hsw, ih]
        _ = occCount pat (x :: xs2) + occCount pat ys := by
            simp [occCount_cons]; omega

/-- A run of characters avoiding `pat` contributes nothing. -/
theorem occCount_ws_append (pat ws ys : List Char) (hws : ∀ c ∈ ws, c ∉ pat)
    (hpat : pat ≠ []) : occCount pat (ws ++ ys) = occCount pat ys := by
  induction ws with
  | nil => rfl
  | cons w ws2 ih =>
      have h1 : w ∉ pat := hws w (by simp)
      have h2 : ∀ c ∈ ws2, c ∉ pat := fun c hcmem => hws c (by simp [hcmem])
      calc occCount pat ((w :: ws2) ++ ys)
          = occCount pat (ws2 ++ ys) := occCount_cons_of_notMem pat (ws2 ++ ys) w h1 hpat
        _ = occCount pat ys := ih h2

theorem occCount_le_append (pat xs ys : List Char) :
    occCount pat ys ≤ occCount pat (xs ++ ys) := by
  induction xs with
  | nil => simp
  | cons x xs2 ih =>
      refine le_trans ih ?_
      rw [List.cons_append, occCount_cons]
      exact Nat.le_add_left _ _

/-- Replacement on a string with no occurrence is the identity. -/
theorem replaceAll_of_occCount_zero (pat new s : List Char)
    (h : occCount pat s = 0) : replaceAll pat new s = s := by
  induction s with
  | nil => simp [replaceAll]
  | cons c rest ih =>
      rw [occCount_cons] at h
      have h1 : startsWith pat (c :: rest) = false := by
        cases hx : startsWith pat (c :: rest) with
        | true => rw [hx] at h; simp at h
        | false => rfl
      have h2 : occCount pat rest = 0 := by rw [h1] at h; simpa using h
      rw [replaceAll, if_neg (by simp [h1]), ih h2]

/-- Replacement fires immediately when the pattern sits at the front. -/
theorem replaceAll_self_append (pat new T : List Char) (hpat : pat ≠ []) :
    replaceAll pat new (pat ++ T) = new ++ replaceAll pat new T := by
  obtain ⟨a, pat2, rfl⟩ : ∃ a l, pat = a :: l := by
    cases pat with
    | nil => exact absurd rfl hpat
    | cons a l => exact ⟨a, l, rfl⟩
  rw [List.cons_append, replaceAll,
    if_pos ⟨by simp, by rw [← List.cons_append]; exact startsWith_self_append _ T⟩,
    ← List.cons_append, List.drop_left]

/-- Replacement walks untouched through a region with no occurrence,
provided the region ends at a character `c` that the pattern avoids (so
no occurrence can straddle the region boundary). -/
theorem replaceAll_skip (pat new p T : List Char) (c : Char) (hc : c ∉ pat)
    (h : occCount pat (p ++ [c]) = 0) :
    replaceAll pat new (p ++ c :: T) = (p ++ [c]) ++ replaceAll pat new T := by
  induction p with
  | nil =>
      have hpat : pat ≠ [] := by
        intro hE
        subst hE
        simp [occCount_cons, startsWith] at h
      have h1 : startsWith pat (c :: T) = false := by
        have := startsWith_append_cons pat [] T c hc
        simpa [startsWith_nil_right pat hpat] using this
      rw [List.nil_append, replaceAll, if_neg (by simp [h1]), List.nil_append,
        List.singleton_append]
  | cons x p2 ih =>
      have hpat : pat ≠ [] := by
        intro hE
        subst hE
        simp [occCount_cons, startsWith] at h
      have hsw0 : startsWith pat ((x :: p2) ++ c :: ([] : List Char))
          = startsWith pat (x :: p2) := startsWith_append_cons pat (x :: p2) [] c hc
      have hsw1 : startsWith pat ((x :: p2) ++ c :: T)
          = startsWith pat (x :: p2) := startsWith_append_cons pat (x :: p2) T c hc
      have hx : startsWith pat (x :: p2) = false := by
        cases hy : startsWith pat (x :: p2) with
        | true =>
            exfalso
            have hT : startsWith pat (x :: (p2 ++ [c])) = true := by
              rw [hy] at hsw0
              simpa using hsw0
            rw [List.cons_append, occCount_cons, hT] at h
            simp at h
        | false => rfl
      have h2 : occCount pat (p2 ++ [c]) = 0 := by
        rw [List.cons_append, occCount_cons] at h
        omega
      rw [List.cons_append, replaceAll, if_neg (by rw [← List.cons_append, hsw1, hx]; simp),
        ih h2, List.cons_append, List.cons_append]

/-- The central computation: on a buffer containing exactly one occurrence
of `pat`, `str.replace` rewrites that single occurrence, and the buffer
decomposes around it. -/
theorem replace_unique (pat new s : List Char) (hpat : pat ≠ [])
    (h1 : occCount pat s = 1) :
    ∃ P Q, s = P ++ pat ++ Q ∧ occCount pat P = 0 ∧ occCount pat Q = 0 ∧
      replaceAll pat new s = P ++ new ++ Q := by
  induction s with
  | nil => simp [occCount_nil] at h1
  | cons c rest ih =>
      rw [occCount_cons] at h1
      cases hm : startsWith pat (c :: rest) with
      | true =>
          obtain ⟨t, ht⟩ := (startsWith_iff _ _).mp hm
          have hrest0 : occCount pat rest = 0 := by rw [hm] at h1; simpa using h1
          obtain ⟨a, pat2, rfl⟩ : ∃ a l, pat = a :: l := by
            cases pat with
            | nil => exact absurd rfl hpat
            | cons a l => exact ⟨a, l, rfl⟩
          have hrest : rest = pat2 ++ t := by
            rw [List.cons_append] at ht
            exact (List.cons.injEq _ _ _ _).mp ht |>.2
          have ht0 : occCount (a :: pat2) t = 0 := by
            have := occCount_le_append (a :: pat2) pat2 t
            rw [← hrest] at this
            omega
          refine ⟨[], t, by simpa using ht, occCount_nil _, ht0, ?_⟩
          rw [replaceAll, if_pos ⟨hpat, hm⟩, ht, List.drop_left,
            replaceAll_of_occCount_zero _ _ _ ht0]
          simp
      | false =>
          have hrest1 : occCount pat rest = 1 := by rw [hm] at h1; simpa using h1
          obtain ⟨P, Q, hsplit, hP, hQ, hrepl⟩ := ih hrest1
          have hPc : occCount pat (c :: P) = 0 := by
            have hswP : startsWith pat (c :: P) = false := by
              cases hz : startsWith pat (c :: P) with
              | true =>
                  exfalso
                  obtain ⟨u, hu⟩ := (startsWith_iff _ _).mp hz
                  have : startsWith pat (c :: rest) = true := by
                    apply (startsWith_iff _ _).mpr
                    refine ⟨u ++ pat ++ Q, ?_⟩
                    rw [hsplit]
                    have : c :: (P ++ pat ++ Q) = (c :: P) ++ pat ++ Q := by simp
                    rw [this, hu]
                    simp
                  rw [this] at hm
                  exact Bool.noConfusion hm
              | false => rfl
            rw [occCount_cons, hswP, hP]
            simp
          refine ⟨c :: P, Q, by rw [hsplit]; simp, hPc, hQ, ?_⟩
          rw [replaceAll, if_neg (by simp [hm]), hrepl]
          simp

/-! ### The document model of `Report` (report.py lines 61-128)

`marker` is the insertion placeholder `<content></content>` seeded once in
the skeleton (line 93).  `add_content` (lines 109-128) reads the whole
file, wraps the fragment as the f-string on lines 119-122 (a newline plus
eight spaces of indentation on each side, re-emitting one fresh marker
after the fragment), and substitutes the wrapped text for the marker via
`str.replace`.  The file contents are the state, so the operation is the
pure function below. -/

/-- The insertion placeholder of the skeleton, report.py line 93. -/
def marker : List Char := "<content></content>".data

/-- The indentation emitted by the f-string on lines 119-122: a newline
followed by eight spaces. -/
def pad : List Char := "\n        ".data

/-- The wrapped replacement text built on lines 119-122:
`"\n        " + content + "\n        " + "<content></content>" + "\n        "`. -/
def wrap (content : List Char) : List Char :=
  pad ++ content ++ pad ++ marker ++ pad

/-- Model of `Report.add_content` (lines 109-128), as a function from the current
file contents to the new file contents. -/
def add_content (full_html content : List Char) : List Char :=
  replaceAll marker (wrap content) full_html

/-- A sequence of `add_content` calls, left to right. -/
def appendAll (s : List Char) : List (List Char) → List Char
  | [] => s
  | f :: fs => appendAll (add_content s f) fs

theorem marker_ne_nil : marker ≠ [] := by decide

theorem space_notMem_marker : (' ' : Char) ∉ marker := by decide

theorem newline_notMem_marker : ('\n' : Char) ∉ marker := by decide

theorem occCount_marker_marker : occCount marker marker = 1 := by decide

theorem pad_eq : pad = '\n' :: "        ".data := by decide

theorem pad_eq_sp7 : pad = "\n       ".data ++ [' '] := by decide

/-- Occurrence counting splits at every `pad`: the marker contains neither
newline nor space, so no occurrence can straddle the padding. -/
theorem occCount_pad_split (xs ys : List Char) :
    occCount marker (xs ++ (pad ++ ys)) = occCount marker xs + occCount marker ys := by
  have h1 : pad ++ ys = '\n' :: ("        ".data ++ ys) := by rw [pad_eq]; simp
  rw [h1, occCount_append_cons marker xs _ '\n' newline_notMem_marker marker_ne_nil,
    occCount_ws_append marker "        ".data ys (by decide) marker_ne_nil]

theorem occCount_pad_left (ys : List Char) :
    occCount marker (pad ++ ys) = occCount marker ys :=
  occCount_ws_append marker pad ys (by decide) marker_ne_nil

theorem occCount_append_pad (B : List Char) (h : occCount marker B = 0) :
    occCount marker (B ++ pad) = 0 := by
  have h2 := occCount_pad_split B []
  simp only [List.append_nil, occCount_nil] at h2
  rw [h2, h]

/-- The wrapped fragment placed between two marker-free regions yields
exactly one marker occurrence (the freshly re-emitted one). -/
theorem occCount_wrap_sandwich (P Q f : List Char) (hP : occCount marker P = 0)
    (hQ : occCount marker Q = 0) (hf : occCount marker f = 0) :
    occCount marker (P ++ wrap f ++ Q) = 1 := by
  have hassoc : P ++ wrap f ++ Q
      = P ++ (pad ++ (f ++ (pad ++ (marker ++ (pad ++ Q))))) := by
    simp [wrap, List.append_assoc]
  have h3 : occCount marker (marker ++ (pad ++ Q)) = 1 := by
    have h4 : pad ++ Q = '\n' :: ("        ".data ++ Q) := by rw [pad_eq]; simp
    rw [h4, occCount_append_cons marker _ _ '\n' newline_notMem_marker marker_ne_nil,
      occCount_ws_append marker "        ".data Q (by decide) marker_ne_nil,
      occCount_marker_marker, hQ]
  rw [hassoc, occCount_pad_split, occCount_pad_split, hP, hf, h3]

/-- Single-append step: on a buffer with exactly one marker and a
marker-free fragment, `add_content` yields a buffer with exactly one
marker, which sits (separated only by the emitted indentation) right
after the inserted fragment. -/
theorem add_content_step (s f : List Char) (hs : occCount marker s = 1)
    (hf : occCount marker f = 0) :
    occCount marker (add_content s f) = 1 ∧
    ∃ u v, add_content s f = u ++ pad ++ f ++ pad ++ marker ++ pad ++ v ∧
      occCount marker u = 0 ∧ occCount marker v = 0 := by
  obtain ⟨P, Q, _, hP, hQ, hrepl⟩ := replace_unique marker (wrap f) s marker_ne_nil hs
  have hres : add_content s f = P ++ wrap f ++ Q := hrepl
  refine ⟨?_, P, Q, ?_, hP, hQ⟩
  · rw [hres]
    exact occCount_wrap_sandwich P Q f hP hQ hf
  · rw [hres]
    simp [wrap, List.append_assoc]

theorem appendAll_marker_invariant (fs : List (List Char)) :
    ∀ (s : List Char), occCount marker s = 1 →
      (∀ g ∈ fs, occCount marker g = 0) →
      ∀ i, occCount marker (appendAll s (fs.take i)) = 1 := by
  induction fs with
  | nil =>
      intro s hs _ i
      simp only [List.take_nil]
      exact hs
  | cons f fs2 ih =>
      intro s hs hfs i
      cases i with
      | zero => simpa [appendAll] using hs
      | succ j =>
          rw [List.take_succ_cons]
          show occCount marker (appendAll (add_content s f) (fs2.take j)) = 1
          exact ih (add_content s f)
            (add_content_step s f hs (hfs f (by simp))).1
            (fun g hg => hfs g (by simp [hg])) j

/-- An `add_content` call never touches a marker-free prefix that is
followed by the emitted indentation: the substitution happens strictly
to the right of it. -/
theorem add_content_prefix_stable (B t f : List Char) (hB : occCount marker B = 0) :
    add_content (B ++ pad ++ t) f = B ++ pad ++ add_content t f := by
  have hshape : B ++ pad ++ t = (B ++ "\n       ".data) ++ ' ' :: t := by
    rw [pad_eq_sp7]
    simp [List.append_assoc]
  have hocc : occCount marker ((B ++ "\n       ".data) ++ [' ']) = 0 := by
    have h2 : (B ++ "\n       ".data) ++ [' '] = B ++ pad := by
      rw [pad_eq_sp7]
      simp [List.append_assoc]
    rw [h2]
    exact occCount_append_pad B hB
  show replaceAll marker (wrap f) (B ++ pad ++ t) = B ++ pad ++ replaceAll marker (wrap f) t
  rw [hshape, replaceAll_skip marker (wrap f) _ t ' ' space_notMem_marker hocc,
    pad_eq_sp7]
  simp [List.append_assoc]

theorem appendAll_prefix_stable (fs : List (List Char)) (B : List Char)
    (hB : occCount marker B = 0) :
    ∀ (t : List Char), occCount marker t = 1 →
      (∀ g ∈ fs, occCount marker g = 0) →
      ∃ t2, appendAll (B ++ pad ++ t) fs = B ++ pad ++ t2 ∧ occCount marker t2 = 1 := by
  induction fs with
  | nil => exact fun t ht _ => ⟨t, rfl, ht⟩
  | cons f fs2 ih =>
      intro t ht hfs
      have hstep : appendAll (B ++ pad ++ t) (f :: fs2)
          = appendAll (B ++ pad ++ add_content t f) fs2 := by
        show appendAll (add_content (B ++ pad ++ t) f) fs2 = _
        rw [add_content_prefix_stable B t f hB]
      rw [hstep]
      exact ih (add_content t f)
        (add_content_step t f ht (hfs f (by simp))).1
        (fun g hg => hfs g (by simp [hg]))

/-- Computation of `add_content` on a buffer given in the canonical
"space, then marker" decomposed form. -/
theorem add_content_at (p Q f : List Char) (hp : occCount marker (p ++ [' ']) = 0)
    (hQ : occCount marker Q = 0) :
    add_content (p ++ ' ' :: (marker ++ Q)) f = (p ++ [' ']) ++ wrap f ++ Q := by
  show replaceAll marker (wrap f) (p ++ ' ' :: (marker ++ Q)) = _
  rw [replaceAll_skip marker (wrap f) p (marker ++ Q) ' ' space_notMem_marker hp,
    replaceAll_self_append marker (wrap f) Q marker_ne_nil,
    replaceAll_of_occCount_zero marker (wrap f) Q hQ]
  simp [List.append_assoc]

/-- C1: for every buffer containing exactly one occurrence of the
insertion marker and every fragment not containing the marker, a
successful `add_content` leaves exactly one occurrence of the marker,
re-emitted right after the inserted fragment (separated only by the
fixed indentation the code itself emits); and along any sequence of
such appends, started from any buffer with exactly one marker (in
particular the freshly constructed skeleton), the marker count is
exactly one after each call. -/
theorem C1_marker_invariant (s f : List Char) (fs : List (List Char))
    (hs : occCount marker s = 1) (hf : occCount marker f = 0)
    (hfs : ∀ g ∈ fs, occCount marker g = 0) :
    (occCount marker (add_content s f) = 1 ∧
      ∃ u v, add_content s f = u ++ f ++ pad ++ marker ++ v) ∧
    ∀ i, occCount marker (appendAll s (fs.take i)) = 1 := by
  refine ⟨⟨(add_content_step s f hs hf).1, ?_⟩, appendAll_marker_invariant fs s hs hfs⟩
  obtain ⟨u, v, heq, _, _⟩ := (add_content_step s f hs hf).2
  refine ⟨u ++ pad, pad ++ v, ?_⟩
  rw [heq]
  simp [List.append_assoc]

/-- Witness for C1 at concrete inputs: the buffer `marker` itself has
exactly one marker, and the fragments are marker-free. -/
theorem C1_marker_invariant_witness :
    occCount marker (add_content marker "x".data) = 1 ∧
    occCount marker (appendAll marker (List.take 1 ["y".data])) = 1 := by
  have h := C1_marker_invariant marker "x".data ["y".data] (by decide) (by decide)
    (by decide)
  exact ⟨h.1.1, h.2 1⟩

/-- C2 is false on the code: `add_content` contains no marker-count check
and no failure path at all.  On a document with zero occurrences of the
marker the `str.replace` call is a silent no-op, so the operation
proceeds normally and returns the buffer unchanged, as shown here on a
concrete zero-marker document. -/
theorem C2_counterexample : add_content "abc".data "x".data = "abc".data :=
  replaceAll_of_occCount_zero marker (wrap "x".data) "abc".data (by decide)

/-- C2 amended: `add_content` performs no marker validation.  With zero
markers the substitution silently returns the document unchanged, and
with two markers it silently replaces both, leaving two markers (each
replacement re-emits one); no error is raised in either case. -/
theorem C2_amended_no_validation :
    (∀ s f, occCount marker s = 0 → add_content s f = s) ∧
    occCount marker (add_content (marker ++ ' ' :: marker) "x".data) = 2 := by
  constructor
  · intro s f h
    exact replaceAll_of_occCount_zero marker (wrap f) s h
  · have h4 : replaceAll marker (wrap "x".data) marker = wrap "x".data := by
      have h5 := replaceAll_self_append marker (wrap "x".data) [] marker_ne_nil
      simpa [replaceAll] using h5
    have h2 : replaceAll marker (wrap "x".data) (' ' :: marker)
        = ' ' :: wrap "x".data := by
      have h3 := replaceAll_skip marker (wrap "x".data) [] marker ' '
        space_notMem_marker (by decide)
      simpa [h4] using h3
    have h1 : add_content (marker ++ ' ' :: marker) "x".data
        = wrap "x".data ++ ' ' :: wrap "x".data := by
      show replaceAll marker (wrap "x".data) (marker ++ ' ' :: marker) = _
      rw [replaceAll_self_append marker _ _ marker_ne_nil, h2]
    have hw : occCount marker (wrap "x".data) = 1 := by
      have h6 := occCount_wrap_sandwich [] [] "x".data (occCount_nil marker)
        (occCount_nil marker) (by decide)
      simpa using h6
    rw [h1, occCount_append_cons marker _ _ ' ' space_notMem_marker marker_ne_nil, hw]

/-- Witness for the amended C2 at a concrete zero-marker document. -/
theorem C2_amended_no_validation_witness :
    occCount marker "abc".data = 0 ∧ add_content "abc".data "x".data = "abc".data :=
  ⟨by decide, C2_amended_no_validation.1 "abc".data "x".data (by decide)⟩

/-- C3: appending fragment `A` and then fragment `B` (both marker-free,
starting from a buffer with exactly one marker) yields a buffer in which
`A` occurs strictly before `B`: the result decomposes as
`u ++ A ++ v ++ B ++ w`. -/
theorem C3_order_preservation (s A B : List Char) (hs : occCount marker s = 1)
    (hA : occCount marker A = 0) (hB : occCount marker B = 0) :
    ∃ u v w, add_content (add_content s A) B = u ++ A ++ v ++ B ++ w := by
  obtain ⟨P, Q, _, hP, hQ, hrepl⟩ := replace_unique marker (wrap A) s marker_ne_nil hs
  have h1 : add_content s A = P ++ wrap A ++ Q := hrepl
  have hshape : P ++ wrap A ++ Q
      = (P ++ pad ++ A ++ "\n       ".data) ++ ' ' :: (marker ++ (pad ++ Q)) := by
    simp [wrap, pad_eq, List.append_assoc]
  have hp : occCount marker ((P ++ pad ++ A ++ "\n       ".data) ++ [' ']) = 0 := by
    have h2 : (P ++ pad ++ A ++ "\n       ".data) ++ [' ']
        = P ++ (pad ++ (A ++ (pad ++ []))) := by
      simp [pad_eq, List.append_assoc]
    rw [h2, occCount_pad_split, occCount_pad_split, hP, hA, occCount_nil]
  have hQ2 : occCount marker (pad ++ Q) = 0 := by
    rw [occCount_pad_left, hQ]
  have h3 : add_content (add_content s A) B
      = ((P ++ pad ++ A ++ "\n       ".data) ++ [' ']) ++ wrap B ++ (pad ++ Q) := by
    rw [h1, hshape]
    exact add_content_at _ _ B hp hQ2
  refine ⟨P ++ pad, pad ++ pad, pad ++ marker ++ pad ++ pad ++ Q, ?_⟩
  rw [h3, pad_eq_sp7]
  simp [wrap, pad_eq, List.append_assoc]

/-- Witness for C3 at concrete inputs. -/
theorem C3_order_preservation_witness :
    ∃ u v w, add_content (add_content marker "A".data) "B".data
      = u ++ "A".data ++ v ++ "B".data ++ w :=
  C3_order_preservation marker "A".data "B".data (by decide) (by decide) (by decide)

/-! ### Construction of a report (report.py lines 62-107, 233-266)

`report_template` is the skeleton f-string of lines 79-100, with the four
interpolated values (`author`, `title`, the fetched `css_content` and
`js_content`) as parameters; it contains the insertion marker once, at
line 93.  `report_info_html` is the metadata banner of
`_show_report_info` (lines 249-262): the f-string of lines 249-261 after
`textwrap.dedent`, which strips the common 8-space margin and clears the
final whitespace-only line (exact for interpolated values containing no
newline, which would otherwise change the common margin).  The
`datetime.today().strftime(...)` value is the `date` parameter.

`report_init` models `__init__` lines 102-107: write the skeleton, then
immediately append the banner.  Note that the source cannot actually
reach the append: line 263 calls `display(HTML(html))` but neither
`display` nor `HTML` is imported anywhere in the module, so every
construction raises `NameError` right after writing the skeleton.  The
definition below models the evidently intended behaviour with that broken
display call treated as a no-op. -/

/-- The HTML skeleton f-string of report.py lines 79-100. -/
def report_template (title author css js : List Char) : List Char :=
  "\n        <!DOCTYPE html>\n            <html lang=\"en\">\n            <head>\n                <meta charset=\"UTF-8\">\n                <meta name=\"viewport\" content=\"width=device-width, initial-scale=1.0\">\n                <meta name=\"author\" content=\"".data
  ++ author
  ++ "\">\n                <title>".data
  ++ title
  ++ "</title>\n                <style>\n                    ".data
  ++ css
  ++ "\n                </style>\n            </head>\n            <body>\n                <div class=\"container-fluid\">\n                    <content></content>\n                </div>\n            </body>\n            <script>\n                ".data
  ++ js
  ++ "\n            </script>\n        </html>\n        ".data

/-- The metadata banner of `_show_report_info` (lines 249-262), after
`textwrap.dedent`. -/
def report_info_html (title author data_source objective date : List Char) : List Char :=
  "\n<div class=\"report-header\">\n    <div class=\"title-bar\">\n        <div class=\"title\"><span class=\"icon\">📊</span> ".data
  ++ title
  ++ "</div>\n        <div class=\"meta\">\n            <span><b>Date:</b> ".data
  ++ date
  ++ "</span>\n            <span><b>Data:</b> ".data
  ++ data_source
  ++ "</span>\n            <span><b>Author:</b> ".data
  ++ author
  ++ "</span>\n            <span><b>Goal:</b> ".data
  ++ objective
  ++ "</span>\n        </div>\n    </div>\n</div>\n".data

/-- Model of `Report.__init__` lines 102-107: the skeleton is written to the file
and the metadata banner is immediately appended to it. -/
def report_init (title author data_source objective date css js : List Char) : List Char :=
  add_content (report_template title author css js)
    (report_info_html title author data_source objective date)

/-- C8: after construction, and after any further sequence of marker-free
appends, the document is the skeleton head, then the metadata banner,
then everything else (all caller content lands after the banner, which
therefore opens the body).  Stated for every construction whose skeleton
carries exactly one marker and whose banner is marker-free. -/
theorem C8_banner_first (title author ds obj date css js : List Char)
    (fs : List (List Char))
    (htpl : occCount marker (report_template title author css js) = 1)
    (hbanner : occCount marker (report_info_html title author ds obj date) = 0)
    (hfs : ∀ g ∈ fs, occCount marker g = 0) :
    ∃ u q t, report_template title author css js = u ++ marker ++ q ∧
      occCount marker u = 0 ∧
      appendAll (report_init title author ds obj date css js) fs
        = (u ++ pad ++ report_info_html title author ds obj date) ++ pad ++ t ∧
      occCount marker t = 1 := by
  obtain ⟨P, Q, hsplit, hP, hQ, hrepl⟩ :=
    replace_unique marker (wrap (report_info_html title author ds obj date))
      (report_template title author css js) marker_ne_nil htpl
  have hinit : report_init title author ds obj date css js
      = (P ++ pad ++ report_info_html title author ds obj date) ++ pad
          ++ (marker ++ (pad ++ Q)) := by
    show replaceAll marker (wrap (report_info_html title author ds obj date))
        (report_template title author css js) = _
    rw [hrepl]
    simp [wrap, List.append_assoc]
  have hB : occCount marker (P ++ pad ++ report_info_html title author ds obj date) = 0 := by
    have hr : P ++ pad ++ report_info_html title author ds obj date
        = P ++ (pad ++ report_info_html title author ds obj date) := by
      simp [List.append_assoc]
    rw [hr, occCount_pad_split, hP, hbanner]
  have ht0 : occCount marker (marker ++ (pad ++ Q)) = 1 := by
    have h4 : pad ++ Q = '\n' :: ("        ".data ++ Q) := by rw [pad_eq]; simp
    rw [h4, occCount_append_cons marker _ _ '\n' newline_notMem_marker marker_ne_nil,
      occCount_ws_append marker "        ".data Q (by decide) marker_ne_nil,
      occCount_marker_marker, hQ]
  obtain ⟨t2, hfinal, ht2⟩ := appendAll_prefix_stable fs
    (P ++ pad ++ report_info_html title author ds obj date) hB
    (marker ++ (pad ++ Q)) ht0 hfs
  refine ⟨P, Q, t2, hsplit, hP, ?_, ht2⟩
  rw [hinit]
  exact hfinal

set_option maxRecDepth 40000 in
/-- Witness for C8 at concrete inputs (small concrete css/js assets and
metadata, empty caller-append sequence). -/
theorem C8_banner_first_witness :
    ∃ u q t, report_template "T".data "X".data "c".data "j".data = u ++ marker ++ q ∧
      occCount marker u = 0 ∧
      appendAll (report_init "T".data "X".data "D".data "O".data "d".data "c".data "j".data) []
        = (u ++ pad ++ report_info_html "T".data "X".data "D".data "O".data "d".data)
            ++ pad ++ t ∧
      occCount marker t = 1 :=
  C8_banner_first "T".data "X".data "D".data "O".data "d".data "c".data "j".data []
    (by decide) (by decide) (by decide)

/-! ### Tables and column selection (chart-grid builders)

A DataFrame is modelled, for selection purposes, by its ordered list of
columns with their inferred kind: `categorical` stands for the pandas
dtypes `object`/`category` (what `select_dtypes(include=["object",
"category"])` picks, countplot/donut family), `numeric` for
`select_dtypes(include=["number"])` (histogram/box/violin and the Altair
family), `other` for any remaining dtype.  The `include_cols` and
`exclude_cols` parameters default to `None` and are tested with Python
truthiness (`if include_cols:`), under which `None` and `[]` behave
identically, so both are modelled by the empty list. -/

/-- Column kind as classified by `df.select_dtypes`. -/
inductive Dtype
  | numeric
  | categorical
  | other
deriving DecidableEq

/-- One DataFrame column: its name and inferred kind. -/
structure Column where
  name : List Char
  dtype : Dtype
deriving DecidableEq

/-- Model of `df.select_dtypes(include=["object", "category"]).columns`. -/
def catCols (df : List Column) : List (List Char) :=
  (df.filter (fun c => decide (c.dtype = Dtype.categorical))).map Column.name

/-- Model of `df.select_dtypes(include=["number"]).columns`. -/
def numCols (df : List Column) : List (List Char) :=
  (df.filter (fun c => decide (c.dtype = Dtype.numeric))).map Column.name

/-- Python slicing `l[:n]`: the first `n` elements when `n ≥ 0`, all but
the last `-n` when `n` is negative. -/
def pyTake {α : Type} (n : Int) (l : List α) : List α :=
  if 0 ≤ n then l.take n.toNat else l.take (l.length - (-n).toNat)

/-- Models `if max_plots: xs = xs[:max_plots]` where `max_plots` is
`Optional[int]` defaulting to `None`: both `None` and `0` are falsy, so
neither truncates. -/
def applyMaxPlots {α : Type} (mp : Option Int) (l : List α) : List α :=
  match mp with
  | Option.none => l
  | Option.some n => if n ≠ 0 then pyTake n l else l

/-- Column selection of `Report.countplot`, report.py lines 419-427:
a truthy `include_cols` replaces the categorical-column list verbatim,
otherwise a truthy `exclude_cols` filters it, then `max_plots` slices. -/
def countplot_cols (df : List Column) (include_cols exclude_cols : List (List Char))
    (max_plots : Option Int) : List (List Char) :=
  let cat_cols := catCols df
  let cat_cols := if include_cols ≠ [] then include_cols
    else if exclude_cols ≠ [] then cat_cols.filter (fun col => decide (col ∉ exclude_cols))
    else cat_cols
  applyMaxPlots max_plots cat_cols

/-- Column selection of `Report.donut`, lines 512-519 (same chain). -/
def donut_cols (df : List Column) (include_cols exclude_cols : List (List Char))
    (max_plots : Option Int) : List (List Char) :=
  let cat_cols := catCols df
  let cat_cols := if include_cols ≠ [] then include_cols
    else if exclude_cols ≠ [] then cat_cols.filter (fun col => decide (col ∉ exclude_cols))
    else cat_cols
  applyMaxPlots max_plots cat_cols

/-- Column selection of `Report.histogram`, lines 603-610 (numeric kind). -/
def histogram_cols (df : List Column) (include_cols exclude_cols : List (List Char))
    (max_plots : Option Int) : List (List Char) :=
  let numeric_cols := numCols df
  let numeric_cols := if include_cols ≠ [] then include_cols
    else if exclude_cols ≠ [] then numeric_cols.filter (fun col => decide (col ∉ exclude_cols))
    else numeric_cols
  applyMaxPlots max_plots numeric_cols

/-- Column selection of `Report.box`, lines 672-679. -/
def box_cols (df : List Column) (include_cols exclude_cols : List (List Char))
    (max_plots : Option Int) : List (List Char) :=
  let numeric_cols := numCols df
  let numeric_cols := if include_cols ≠ [] then include_cols
    else if exclude_cols ≠ [] then numeric_cols.filter (fun col => decide (col ∉ exclude_cols))
    else numeric_cols
  applyMaxPlots max_plots numeric_cols

/-- Column selection of `Report.violin`, lines 741-748. -/
def violin_cols (df : List Column) (include_cols exclude_cols : List (List Char))
    (max_plots : Option Int) : List (List Char) :=
  let numeric_cols := numCols df
  let numeric_cols := if include_cols ≠ [] then include_cols
    else if exclude_cols ≠ [] then numeric_cols.filter (fun col => decide (col ∉ exclude_cols))
    else numeric_cols
  applyMaxPlots max_plots numeric_cols

/-- Column selection of `Report.pairplot`, lines 801-805: a truthy
`include_cols` is INTERSECTED with the numeric columns
(`[col for col in numeric_cols if col in include_cols]`). -/
def pairplot_cols (df : List Column) (include_cols exclude_cols : List (List Char)) :
    List (List Char) :=
  let numeric_cols := numCols df
  if include_cols ≠ [] then numeric_cols.filter (fun col => decide (col ∈ include_cols))
  else if exclude_cols ≠ [] then numeric_cols.filter (fun col => decide (col ∉ exclude_cols))
  else numeric_cols

/-- Column selection of `Report.histoplot`, lines 878-885 (intersection
form, then `max_plots` sliced from the column list). -/
def histoplot_cols (df : List Column) (include_cols exclude_cols : List (List Char))
    (max_plots : Option Int) : List (List Char) :=
  let numeric_cols := numCols df
  let numeric_cols := if include_cols ≠ [] then
      numeric_cols.filter (fun col => decide (col ∈ include_cols))
    else if exclude_cols ≠ [] then
      numeric_cols.filter (fun col => decide (col ∉ exclude_cols))
    else numeric_cols
  applyMaxPlots max_plots numeric_cols

/-- Column selection of `Report.boxplot`, lines 945-952. -/
def boxplot_cols (df : List Column) (include_cols exclude_cols : List (List Char))
    (max_plots : Option Int) : List (List Char) :=
  let numeric_cols := numCols df
  let numeric_cols := if include_cols ≠ [] then
      numeric_cols.filter (fun col => decide (col ∈ include_cols))
    else if exclude_cols ≠ [] then
      numeric_cols.filter (fun col => decide (col ∉ exclude_cols))
    else numeric_cols
  applyMaxPlots max_plots numeric_cols

/-- Column selection of `Report.densityplot`, lines 1010-1017. -/
def densityplot_cols (df : List Column) (include_cols exclude_cols : List (List Char))
    (max_plots : Option Int) : List (List Char) :=
  let numeric_cols := numCols df
  let numeric_cols := if include_cols ≠ [] then
      numeric_cols.filter (fun col => decide (col ∈ include_cols))
    else if exclude_cols ≠ [] then
      numeric_cols.filter (fun col => decide (col ∉ exclude_cols))
    else numeric_cols
  applyMaxPlots max_plots numeric_cols

/-- The pair list of `Report.pairplot`, lines 807-811: the double loop
`for i in range(n): for j in range(n): pair_combos.append((cols[i],
cols[j]))`.  Line 818 later reads each pair as `for y, x in pair_combos`,
so the first component (outer loop) is the y-axis column and the second
(inner loop) the x-axis column. -/
def pair_combos (cols : List (List Char)) : List (List Char × List Char) :=
  (cols.map (fun y => cols.map (fun x => (y, x)))).flatten

/-- Lines 813-814: `if max_plots: pair_combos = pair_combos[:max_plots]` —
the truncation is applied to the pair list, not the column list. -/
def pairplot_pairs (df : List Column) (include_cols exclude_cols : List (List Char))
    (max_plots : Option Int) : List (List Char × List Char) :=
  applyMaxPlots max_plots (pair_combos (pairplot_cols df include_cols exclude_cols))

/-- The per-column frequency/percentage computation shared verbatim by
`Report.countplot` (lines 432-441) and `Report.donut` (lines 523-530).
Input: the `value_counts()` table of (category, count) rows, which pandas
returns sorted by descending count.  The table is truncated to the first
`max_categories` rows when longer, then the percentage column is computed
over the sum of the RETAINED counts.  The Python float percentage is
modelled by the exact rational `count / total * 100`. -/
def value_percent_table (count_data : List (List Char × Nat)) (max_categories : Nat) :
    List (List Char × Nat × ℚ) :=
  let count_data := if count_data.length > max_categories
    then count_data.take max_categories else count_data
  let total_count : Nat := (count_data.map Prod.snd).sum
  count_data.map (fun p => (p.1, p.2, ((p.2 : ℚ) / (total_count : ℚ)) * 100))

/-! ### `Report.add_row` (lines 160-196) -/

/-- The forms the `classes` argument can take: absent (`None`), a single
string, or a sequence of strings. -/
inductive ClassesArg
  | noneArg
  | strArg (s : List Char)
  | listArg (l : List (List Char))
deriving DecidableEq

/-- Result of `add_row`: the row fragment that line 196 hands to
`add_content`, or the `ValueError("Length of cols and classes must be
equal!!!")` raised on line 180 (the spec's `LengthMismatch`). -/
inductive RowOutcome
  | html (s : List Char)
  | lengthMismatchError
deriving DecidableEq

/-- The default responsive column class of line 174. -/
def defaultRowClass : List Char := "col-xl-6 col-lg-6 col-md-12 col-sm col-xs".data

/-- One column container, the f-string of lines 184-188. -/
def rowColumnDiv (class_name content : List Char) : List Char :=
  "\n            <div class=\"".data ++ class_name
    ++ "\">\n                ".data ++ content
    ++ "\n            </div>\n            ".data

/-- The accumulation loop of lines 182-188 over `zip(contents, classes)`. -/
def rowContents (contents classes : List (List Char)) : List Char :=
  (contents.zip classes).foldl (fun acc p => acc ++ rowColumnDiv p.2 p.1) []

/-- The row wrapper f-string of lines 190-194. -/
def rowWrap (full_contents : List Char) : List Char :=
  "\n        <div class=\"row\">\n            ".data ++ full_contents
    ++ "\n        </div>\n        ".data

/-- Python truthiness of the `classes` argument (`if not classes:` on
line 173): `None`, the empty string and the empty list are all falsy. -/
def classesFalsy : ClassesArg → Bool
  | ClassesArg.noneArg => true
  | ClassesArg.strArg s => s.isEmpty
  | ClassesArg.listArg l => l.isEmpty

/-- Model of `Report.add_row` (lines 160-196): the `if not classes / elif
type(classes) == str / elif len(contents) != len(classes)` chain, then
the row fragment build.  (A non-falsy `noneArg` cannot happen; that arm
repeats the default branch for totality.) -/
def add_row (contents : List (List Char)) (classes : ClassesArg) : RowOutcome :=
  if classesFalsy classes then
    RowOutcome.html (rowWrap (rowContents contents
      (List.replicate contents.length defaultRowClass)))
  else
    match classes with
    | ClassesArg.strArg s =>
        RowOutcome.html (rowWrap (rowContents contents
          (List.replicate contents.length s)))
    | ClassesArg.listArg l =>
        if contents.length ≠ l.length then RowOutcome.lengthMismatchError
        else RowOutcome.html (rowWrap (rowContents contents l))
    | ClassesArg.noneArg =>
        RowOutcome.html (rowWrap (rowContents contents
          (List.replicate contents.length defaultRowClass)))

/-- C4 is false on the code at the empty list: `if not classes:` treats an
empty class list as absent (Python truthiness), so
`add_row(["a"], classes=[])` applies the default class and succeeds even
though the lengths 1 and 0 differ — it does not raise. -/
theorem C4_counterexample :
    add_row [['a']] (ClassesArg.listArg []) ≠ RowOutcome.lengthMismatchError := by
  decide

/-- C4 amended: a NON-EMPTY class sequence whose length differs from
`len(contents)` makes `add_row` fail with `ValueError` (the spec's
`LengthMismatch`); the empty sequence is falsy and is instead treated as
absent, with the default class applied to every column. -/
theorem C4_length_mismatch (contents l : List (List Char))
    (hne : l ≠ []) (hlen : contents.length ≠ l.length) :
    add_row contents (ClassesArg.listArg l) = RowOutcome.lengthMismatchError := by
  obtain ⟨x, xs, rfl⟩ : ∃ x xs, l = x :: xs := by
    cases l with
    | nil => exact absurd rfl hne
    | cons x xs => exact ⟨x, xs, rfl⟩
  simp only [add_row, classesFalsy, List.isEmpty_cons, Bool.false_eq_true, if_false,
    if_pos hlen]

/-- Witness for the amended C4 at the spec's own example
`add_row(["a","b","c"], classes=["c1","c2"])`. -/
theorem C4_length_mismatch_witness :
    (["c1".data, "c2".data] ≠ ([] : List (List Char))) ∧
    (["a".data, "b".data, "c".data].length ≠ ["c1".data, "c2".data].length) ∧
    add_row ["a".data, "b".data, "c".data] (ClassesArg.listArg ["c1".data, "c2".data])
      = RowOutcome.lengthMismatchError :=
  ⟨by decide, by decide,
    C4_length_mismatch ["a".data, "b".data, "c".data] ["c1".data, "c2".data]
      (by decide) (by decide)⟩

/-- C9: in the countplot/donut/histogram/box/violin family, passing
`max_plots=0` does not limit the output to zero charts: `0` is falsy in
`if max_plots:`, so the selected column list (one chart card per column)
is exactly the unlimited one. -/
theorem C9_max_plots_zero (df : List Column) (inc exc : List (List Char)) :
    countplot_cols df inc exc (Option.some 0) = countplot_cols df inc exc Option.none ∧
    donut_cols df inc exc (Option.some 0) = donut_cols df inc exc Option.none ∧
    histogram_cols df inc exc (Option.some 0) = histogram_cols df inc exc Option.none ∧
    box_cols df inc exc (Option.some 0) = box_cols df inc exc Option.none ∧
    violin_cols df inc exc (Option.some 0) = violin_cols df inc exc Option.none := by
  refine ⟨?_, ?_, ?_, ?_, ?_⟩ <;>
    simp [countplot_cols, donut_cols, histogram_cols, box_cols, violin_cols, applyMaxPlots]

/-- C10: the two chart families apply a non-empty `include_cols`
differently.  The Plotly family (countplot/donut/histogram/box/violin)
takes the listed names verbatim — every listed name is selected, of the
matching kind or not, a column of the table or not.  The Altair family
(pairplot/histoplot/boxplot/densityplot) intersects the list with the
table's numeric columns, so a listed non-numeric name is dropped. -/
theorem C10_include_semantics (df : List Column) (inc exc : List (List Char))
    (hinc : inc ≠ []) :
    (countplot_cols df inc exc Option.none = inc ∧
     donut_cols df inc exc Option.none = inc ∧
     histogram_cols df inc exc Option.none = inc ∧
     box_cols df inc exc Option.none = inc ∧
     violin_cols df inc exc Option.none = inc) ∧
    (pairplot_cols df inc exc = (numCols df).filter (fun col => decide (col ∈ inc)) ∧
     histoplot_cols df inc exc Option.none
        = (numCols df).filter (fun col => decide (col ∈ inc)) ∧
     boxplot_cols df inc exc Option.none
        = (numCols df).filter (fun col => decide (col ∈ inc)) ∧
     densityplot_cols df inc exc Option.none
        = (numCols df).filter (fun col => decide (col ∈ inc))) ∧
    (∀ y, y ∉ numCols df → y ∉ pairplot_cols df inc exc) := by
  refine ⟨⟨?_, ?_, ?_, ?_, ?_⟩, ⟨?_, ?_, ?_, ?_⟩, ?_⟩
  · simp [countplot_cols, applyMaxPlots, hinc]
  · simp [donut_cols, applyMaxPlots, hinc]
  · simp [histogram_cols, applyMaxPlots, hinc]
  · simp [box_cols, applyMaxPlots, hinc]
  · simp [violin_cols, applyMaxPlots, hinc]
  · simp [pairplot_cols, hinc]
  · simp [histoplot_cols, applyMaxPlots, hinc]
  · simp [boxplot_cols, applyMaxPlots, hinc]
  · simp [densityplot_cols, applyMaxPlots, hinc]
  · intro y hy hmem
    simp only [pairplot_cols, if_pos hinc] at hmem
    exact hy (List.mem_of_mem_filter hmem)

/-- Witness for C10 at a table with one numeric column `a`: the Plotly
family keeps the non-column name `z`, the Altair family drops it. -/
theorem C10_include_semantics_witness :
    countplot_cols [⟨"a".data, Dtype.numeric⟩] ["a".data, "z".data] [] Option.none
      = ["a".data, "z".data] ∧
    pairplot_cols [⟨"a".data, Dtype.numeric⟩] ["a".data, "z".data] []
      = (numCols [⟨"a".data, Dtype.numeric⟩]).filter
          (fun col => decide (col ∈ (["a".data, "z".data] : List (List Char)))) := by
  have h := C10_include_semantics [⟨"a".data, Dtype.numeric⟩] ["a".data, "z".data] []
    (by decide)
  exact ⟨h.1.1, h.2.1.1⟩

theorem filter_eq_singleton_of_nodup {α : Type} [DecidableEq α] (l : List α) (x : α)
    (hl : l.Nodup) (hx : x ∈ l) : l.filter (fun c => decide (c = x)) = [x] := by
  induction l with
  | nil => simp at hx
  | cons a l2 ih =>
      rcases List.mem_cons.mp hx with rfl | hx2
      · have hnil : l2.filter (fun c => decide (c = x)) = [] := by
          rw [List.filter_eq_nil_iff]
          intro c hc
          simp only [decide_eq_true_eq]
          rintro rfl
          exact (List.nodup_cons.mp hl).1 hc
        simp [List.filter_cons, hnil]
      · have hne : a ≠ x := by
          rintro rfl
          exact (List.nodup_cons.mp hl).1 hx2
        rw [List.filter_cons, if_neg (by simp [hne])]
        exact ih (List.nodup_cons.mp hl).2 hx2

/-- C5 is false as universally stated: in the Altair family the include
list is intersected with the numeric columns, so on a table whose only
column `x` is categorical, `pairplot(include=["x"], exclude=["x"])`
selects the empty set, not `{"x"}`. -/
theorem C5_counterexample :
    pairplot_cols [⟨"x".data, Dtype.categorical⟩] ["x".data] ["x".data]
      ≠ ["x".data] := by
  decide

/-- C5 amended: `include` always wins over `exclude` (with a non-empty
include list the exclude list is irrelevant), and with neither given all
columns of the matching kind are selected; but the guaranteed selected
set `{x}` of `include=[x], exclude=[x]` holds unconditionally only in
the countplot family — the pairplot family intersects with the numeric
columns, yielding `[x]` exactly when `x` is a numeric column of the
table and `[]` otherwise. -/
theorem C5_include_wins (df : List Column) (x : List Char)
    (inc exc : List (List Char)) (hinc : inc ≠ [])
    (hnd : (df.map Column.name).Nodup) :
    countplot_cols df [x] exc Option.none = [x] ∧
    countplot_cols df inc exc Option.none = inc ∧
    (x ∈ numCols df → pairplot_cols df [x] exc = [x]) ∧
    (x ∉ numCols df → pairplot_cols df [x] exc = []) ∧
    countplot_cols df [] [] Option.none = catCols df ∧
    pairplot_cols df [] [] = numCols df := by
  have hnum_nodup : (numCols df).Nodup := by
    have hsub : List.Sublist
        ((df.filter (fun c => decide (c.dtype = Dtype.numeric))).map Column.name)
        (df.map Column.name) := (List.filter_sublist df).map Column.name
    exact hnd.sublist hsub
  have hsel : pairplot_cols df [x] exc
      = (numCols df).filter (fun col => decide (col = x)) := by
    rw [pairplot_cols, if_pos (by simp)]
    exact List.filter_congr (fun c _ => by simp)
  refine ⟨?_, ?_, ?_, ?_, ?_, ?_⟩
  · simp [countplot_cols, applyMaxPlots]
  · simp [countplot_cols, applyMaxPlots, hinc]
  · intro hx
    rw [hsel]
    exact filter_eq_singleton_of_nodup (numCols df) x hnum_nodup hx
  · intro hx
    rw [hsel, List.filter_eq_nil_iff]
    intro c hc
    simp only [decide_eq_true_eq]
    rintro rfl
    exact hx hc
  · simp [countplot_cols, applyMaxPlots]
  · simp [pairplot_cols]

/-- Witness for the amended C5: `include=["q"], exclude=["q"]` on the
countplot family selects `["q"]` outright, and on the pairplot family
selects `["a"]` when `a` is the numeric column listed. -/
theorem C5_include_wins_witness :
    countplot_cols [⟨"a".data, Dtype.numeric⟩] ["q".data] ["q".data] Option.none
      = ["q".data] ∧
    pairplot_cols [⟨"a".data, Dtype.numeric⟩] ["a".data] ["a".data] = ["a".data] := by
  have h1 := C5_include_wins [⟨"a".data, Dtype.numeric⟩] "q".data ["q".data] ["q".data]
    (by decide) (by decide)
  have h2 := C5_include_wins [⟨"a".data, Dtype.numeric⟩] "a".data ["a".data] ["a".data]
    (by decide) (by decide)
  exact ⟨h1.1, h2.2.2.1 (by decide)⟩

theorem sum_map_percent {β : Type} (l : List (β × Nat)) (T : ℚ) :
    (l.map (fun p => ((p.2 : ℚ) / T) * 100)).sum
      = (((l.map Prod.snd).sum : Nat) : ℚ) / T * 100 := by
  induction l with
  | nil => simp
  | cons a l2 ih =>
      simp only [List.map_cons, List.sum_cons, ih]
      push_cast
      ring

/-- C6: when the distinct-category count exceeds `max_categories`, the
frequency table (sorted by descending count) is truncated to the top
`max_categories` rows before percentages are computed; every retained
count dominates every dropped count; each retained percentage is its
count over the RETAINED total times 100 — consequently the retained
percentages sum to 100 even though categories were dropped (they would
sum to less if the original total were used). -/
theorem C6_percentage_truncation (count_data : List (List Char × Nat)) (m : Nat)
    (hsort : count_data.Pairwise (fun p q => q.2 ≤ p.2))
    (hm : m < count_data.length) (hm0 : 0 < m)
    (hpos : ∀ p ∈ count_data, 0 < p.2) :
    value_percent_table count_data m
      = (count_data.take m).map (fun p => (p.1, p.2,
          ((p.2 : ℚ) / (((count_data.take m).map Prod.snd).sum : ℚ)) * 100)) ∧
    (∀ p ∈ count_data.take m, ∀ q ∈ count_data.drop m, q.2 ≤ p.2) ∧
    ((value_percent_table count_data m).map (fun r => r.2.2)).sum = 100 := by
  have heq : value_percent_table count_data m
      = (count_data.take m).map (fun p => (p.1, p.2,
          ((p.2 : ℚ) / (((count_data.take m).map Prod.snd).sum : ℚ)) * 100)) := by
    rw [value_percent_table]
    rw [if_pos hm]
  have hdom : ∀ p ∈ count_data.take m, ∀ q ∈ count_data.drop m, q.2 ≤ p.2 := by
    have hpw := hsort
    rw [← List.take_append_drop m count_data] at hpw
    exact (List.pairwise_append.mp hpw).2.2
  have hT : ((count_data.take m).map Prod.snd).sum ≠ 0 := by
    intro h0
    have hlen : (count_data.take m).length = m := by
      rw [List.length_take]
      omega
    have hne : count_data.take m ≠ [] := by
      intro hE
      rw [hE] at hlen
      simp at hlen
      omega
    obtain ⟨p, hp⟩ := List.exists_mem_of_ne_nil (count_data.take m) hne
    have hp2 : 0 < p.2 := hpos p (List.mem_of_mem_take hp)
    have hzero : p.2 = 0 :=
      (List.sum_eq_zero_iff.mp h0) p.2 (List.mem_map_of_mem Prod.snd hp)
    omega
  refine ⟨heq, hdom, ?_⟩
  rw [heq, List.map_map]
  have hcomp : ((fun r : List Char × Nat × ℚ => r.2.2) ∘ (fun p : List Char × Nat =>
      (p.1, p.2, ((p.2 : ℚ) / (((count_data.take m).map Prod.snd).sum : ℚ)) * 100)))
      = fun p => ((p.2 : ℚ) / (((count_data.take m).map Prod.snd).sum : ℚ)) * 100 := rfl
  rw [hcomp, sum_map_percent, div_self (by exact_mod_cast hT), one_mul]

/-- Witness for C6 at the spec's example: counts A=50, B=30, C=15, D=5
with `max_categories = 2` retain A and B with percentages 62.5 and 37.5
(over the retained total 80). -/
theorem C6_percentage_truncation_witness :
    value_percent_table
        [("A".data, 50), ("B".data, 30), ("C".data, 15), ("D".data, 5)] 2
      = [("A".data, 50, (62.5 : ℚ)), ("B".data, 30, (37.5 : ℚ))] := by
  have h := C6_percentage_truncation
    [("A".data, 50), ("B".data, 30), ("C".data, 15), ("D".data, 5)] 2
    (by decide) (by decide) (by decide) (by decide)
  rw [h.1]
  norm_num

theorem pair_grid_length (rows cols : List (List Char)) :
    ((rows.map (fun y => cols.map (fun x => (y, x)))).flatten).length
      = rows.length * cols.length := by
  induction rows with
  | nil => simp
  | cons r rows2 ih =>
      simp only [List.map_cons, List.flatten_cons, List.length_append, List.length_map,
        List.length_cons, ih]
      ring

theorem pair_combos_length (cols : List (List Char)) :
    (pair_combos cols).length = cols.length * cols.length :=
  pair_grid_length cols cols

theorem pair_grid_get (cols : List (List Char)) :
    ∀ (rows : List (List Char)) (i j : Nat) (hi : i < rows.length) (hj : j < cols.length)
      (h : i * cols.length + j
        < ((rows.map (fun y => cols.map (fun x => (y, x)))).flatten).length),
      ((rows.map (fun y => cols.map (fun x => (y, x)))).flatten).get
          ⟨i * cols.length + j, h⟩
        = (rows.get ⟨i, hi⟩, cols.get ⟨j, hj⟩) := by
  intro rows
  induction rows with
  | nil =>
      intro i j hi
      simp at hi
  | cons r rows2 ih =>
      intro i j hi hj h
      cases i with
      | zero =>
          simp only [Nat.zero_mul, Nat.zero_add, List.map_cons, List.flatten_cons] at h ⊢
          rw [List.get_eq_getElem, List.getElem_append_left (by simpa using hj),
            List.getElem_map]
          rfl
      | succ k =>
          have hk : k < rows2.length := by
            simp only [List.length_cons] at hi
            omega
          simp only [List.map_cons, List.flatten_cons] at h ⊢
          rw [List.get_eq_getElem]
          have hge : (cols.map (fun x => (r, x))).length ≤ (k + 1) * cols.length + j := by
            simp only [List.length_map, Nat.succ_mul]
            omega
          rw [List.getElem_append_right hge]
          have hidx : (k + 1) * cols.length + j - (cols.map (fun x => (r, x))).length
              = k * cols.length + j := by
            simp only [List.length_map, Nat.succ_mul]
            omega
          have hbound : k * cols.length + j
              < ((rows2.map (fun y => cols.map (fun x => (y, x)))).flatten).length := by
            rw [pair_grid_length]
            have h1 : k * cols.length + j < (k + 1) * cols.length := by
              rw [Nat.succ_mul]
              omega
            have h2 : (k + 1) * cols.length ≤ rows2.length * cols.length :=
              Nat.mul_le_mul_right _ (Nat.succ_le_of_lt hk)
            omega
          have hrec := ih k j hk hj hbound
          rw [List.get_eq_getElem] at hrec
          simp only [hidx]
          rw [hrec]
          rfl

/-- C7: the pairwise grid of `pairplot` is the full n x n Cartesian
product in row-major order: it has length n*n; the pair at flat index
`i*n + j` is `(cols[i], cols[j])` with the outer-loop component first
(read back as the y-axis by `for y, x in pair_combos`) and the
inner-loop component second (x-axis); all n self-pairs are included; and
`max_plots` truncates this pair list (a positive `max_plots = m` leaves
`min m (n*n)` pairs — truncating the column list instead would leave
`(min m n)^2`). -/
theorem C7_pairplot_grid (cols : List (List Char)) (i j : Nat)
    (hi : i < cols.length) (hj : j < cols.length)
    (hidx : i * cols.length + j < (pair_combos cols).length)
    (df : List Column) (inc exc : List (List Char)) (m : Nat) (hm : 0 < m) :
    (pair_combos cols).length = cols.length * cols.length ∧
    (pair_combos cols).get ⟨i * cols.length + j, hidx⟩
      = (cols.get ⟨i, hi⟩, cols.get ⟨j, hj⟩) ∧
    (cols.get ⟨i, hi⟩, cols.get ⟨i, hi⟩) ∈ pair_combos cols ∧
    (pairplot_pairs df inc exc (Option.some (m : Int))).length
      = min m ((pairplot_cols df inc exc).length * (pairplot_cols df inc exc).length) := by
  have hselfidx : i * cols.length + i < (pair_combos cols).length := by
    rw [pair_combos_length]
    have h1 : i * cols.length + i < (i + 1) * cols.length := by
      rw [Nat.succ_mul]
      omega
    have h2 : (i + 1) * cols.length ≤ cols.length * cols.length :=
      Nat.mul_le_mul_right _ (Nat.succ_le_of_lt hi)
    omega
  refine ⟨pair_combos_length cols, pair_grid_get cols cols i j hi hj hidx, ?_, ?_⟩
  · have hself := pair_grid_get cols cols i i hi hi hselfidx
    rw [← hself]
    exact List.get_mem _ _ _
  · have hmz : ((m : Int) ≠ 0) := by
      simp only [ne_eq, Int.natCast_eq_zero]
      omega
    rw [pairplot_pairs, applyMaxPlots, if_pos hmz, pyTake,
      if_pos (Int.natCast_nonneg m), Int.toNat_natCast, List.length_take,
      pair_combos_length]

/-- Witness for C7 on the two-column table `[a, b]`: four pairs, the pair
at flat index `1*2 + 0` is `(b, a)` (y = outer, x = inner), the self-pair
`(b, b)` is present, and `max_plots = 3` leaves `min 3 4` pairs. -/
theorem C7_pairplot_grid_witness :
    (pair_combos ["a".data, "b".data]).length = 2 * 2 ∧
    (pair_combos ["a".data, "b".data]).get
        ⟨1 * ["a".data, "b".data].length + 0, by decide⟩
      = ("b".data, "a".data) ∧
    ("b".data, "b".data) ∈ pair_combos ["a".data, "b".data] ∧
    (pairplot_pairs [⟨"a".data, Dtype.numeric⟩, ⟨"b".data, Dtype.numeric⟩] [] []
        (Option.some ((3 : Nat) : Int))).length
      = min 3 ((pairplot_cols [⟨"a".data, Dtype.numeric⟩, ⟨"b".data, Dtype.numeric⟩]
          [] []).length
        * (pairplot_cols [⟨"a".data, Dtype.numeric⟩, ⟨"b".data, Dtype.numeric⟩]
          [] []).length) := by
  have h := C7_pairplot_grid ["a".data, "b".data] 1 0 (by decide) (by decide) (by decide)
    [⟨"a".data, Dtype.numeric⟩, ⟨"b".data, Dtype.numeric⟩] [] [] 3 (by decide)
  exact ⟨h.1, h.2.1, h.2.2.1, h.2.2.2⟩

end Report
